import Mathlib

/-!
Shallow embedding of the cokra-rs core engine (turn execution and agent
orchestration), translated from the Rust sources under `cokra-rs/core/src`.
Each definition mirrors one source function; theorems settle the testable
properties of the specification against these definitions.
-/

namespace Cokra

/-! ### JSON values (serde_json::Value)

`src/cokra-rs/core/src/tools/validation.rs` receives tool arguments as a
`serde_json::Value`.  Object fields are kept as an association list of
key/value pairs; the traversal checks only look at values, never keys,
exactly as `map.values()` does in the source. -/
inductive Json where
  | null : Json
  | bool (b : Bool) : Json
  | num (n : Int) : Json
  | str (s : String) : Json
  | arr (items : List Json) : Json
  | obj (fields : List (String × Json)) : Json

/-- Rust `str::contains(pat)`: `pat` occurs as a contiguous substring of `s`. -/
def containsSubstring (s pat : String) : Bool :=
  decide (pat.toList <:+: s.toList)

/-- The two path-traversal sequences checked by `has_path_traversal`. -/
def hasTraversalSeq (s : String) : Bool :=
  containsSubstring s "../" || containsSubstring s "..\\"

mutual

/-- `has_path_traversal` from `tools/validation.rs` lines 123-130: strings are
checked for the traversal sequences, arrays recurse into items, objects
recurse into the field values only. -/
def has_path_traversal : Json → Bool
  | .str s => hasTraversalSeq s
  | .arr items => hasPathTraversalList items
  | .obj fields => hasPathTraversalFields fields
  | _ => false

def hasPathTraversalList : List Json → Bool
  | [] => false
  | j :: rest => has_path_traversal j || hasPathTraversalList rest

def hasPathTraversalFields : List (String × Json) → Bool
  | [] => false
  | kv :: rest => has_path_traversal kv.2 || hasPathTraversalFields rest

end

/-! ### Tool-call validation (`tools/validation.rs`) -/
structure ToolCall where
  tool_name : String
  args : Json

structure ValidationResult where
  valid : Bool
  reason : Option String
deriving DecidableEq

inductive ValidationError where
  | dangerousCommand : ValidationError
  | pathTraversal : ValidationError
  | permissionDenied (reason : String) : ValidationError
  | invalidArguments (reason : String) : ValidationError
deriving DecidableEq

inductive ApprovalMode where
  | auto | ask | never
deriving DecidableEq

inductive ApprovalResult where
  | approved : ApprovalResult
  | denied (reason : String) : ApprovalResult
  | requiresUserInput (prompt : String) : ApprovalResult
deriving DecidableEq

/-- `ApprovalPolicyExt::check_tool_use` from `tools/validation.rs`. -/
def check_tool_use (mode : ApprovalMode) (tool : String) : ApprovalResult :=
  match mode with
  | .auto => .approved
  | .ask => .requiresUserInput ("Execute " ++ tool ++ "?")
  | .never => .denied "Tool use disabled"

/-- The denylist from `contains_dangerous_patterns`. -/
def dangerousPatterns : List String :=
  ["rm -rf /", "mkfs", "dd if=", "shutdown", "reboot", ":(){:|:&};:"]

def contains_dangerous_patterns (cmd : String) : Bool :=
  dangerousPatterns.any (fun pat => containsSubstring cmd pat)

/-- `serde_json::Value::get(key)` on an object followed by `as_str`. -/
def jsonGetStr (v : Json) (key : String) : Option String :=
  match v with
  | .obj fields =>
    match fields.find? (fun kv => kv.1 == key) with
    | some (_, .str s) => some s
    | _ => none
  | _ => none

/-- `ToolValidator::validate_shell_command`. -/
def validate_shell_command (cmd : String) : Except ValidationError ValidationResult :=
  if contains_dangerous_patterns cmd then
    .error .dangerousCommand
  else
    .ok { valid := true, reason := none }

/-- `ToolValidator::validate_tool_call` from `tools/validation.rs` lines 44-72:
path-traversal check first, then the shell denylist for the `shell` tool,
then the approval policy. -/
def validate_tool_call (mode : ApprovalMode) (call : ToolCall) :
    Except ValidationError ValidationResult :=
  if has_path_traversal call.args then
    .error .pathTraversal
  else
    match
      (if call.tool_name == "shell" then
        match jsonGetStr call.args "command" with
        | none => Except.error (ValidationError.invalidArguments "missing command")
        | some cmd => validate_shell_command cmd
      else Except.ok { valid := true, reason := none }) with
    | .error e => .error e
    | .ok _ =>
      match check_tool_use mode call.tool_name with
      | .approved => .ok { valid := true, reason := none }
      | .denied reason => .error (.permissionDenied reason)
      | .requiresUserInput prompt => .ok { valid := false, reason := some prompt }

/-- Specification-side predicate: the arguments JSON contains, anywhere in a
string value (including strings nested inside arrays and object values), one
of the traversal sequences. -/
inductive HasTraversalStringValue : Json → Prop
  | strCase {s : String} (h : hasTraversalSeq s = true) :
      HasTraversalStringValue (.str s)
  | arrCase {j : Json} {items : List Json} (hmem : j ∈ items)
      (h : HasTraversalStringValue j) : HasTraversalStringValue (.arr items)
  | objCase {k : String} {j : Json} {fields : List (String × Json)}
      (hmem : (k, j) ∈ fields) (h : HasTraversalStringValue j) :
      HasTraversalStringValue (.obj fields)

/-! ### Tool-call-id normalization (`model/transform.rs` lines 421-451) -/
inductive ToolCallIdFormat where
  | default | sanitize | alphanumeric9

/-- Rust `char::is_ascii_alphanumeric`. -/
def isAsciiAlphanumeric (c : Char) : Bool :=
  ('a' ≤ c && c ≤ 'z') || ('A' ≤ c && c ≤ 'Z') || ('0' ≤ c && c ≤ '9')

/-- `normalize_tool_call_id` from `model/transform.rs` lines 426-451.  The
source pads with `'0'` while `normalized.len() < 9`; every retained character
is ASCII, so the byte length the source measures equals the character count
used here. -/
def normalize_tool_call_id (id : String) (format : ToolCallIdFormat) : String :=
  match format with
  | .default => id
  | .sanitize =>
    String.mk (id.toList.map (fun c =>
      if isAsciiAlphanumeric c || c == '_' || c == '-' then c else '_'))
  | .alphanumeric9 =>
    let filtered := (id.toList.filter isAsciiAlphanumeric).take 9
    String.mk (filtered ++ List.replicate (9 - filtered.length) '0')

/-- `normalize_tool_call_id_for_mistral` from `model/transform.rs`. -/
def normalize_tool_call_id_for_mistral (id : String) : String :=
  normalize_tool_call_id id .alphanumeric9

/-! ### Agent status FSM

`AgentControl::transition` (`agent/control.rs` lines 208-214) guards status
writes with `AgentStatus::can_transition_to`.  The `AgentStatus` enum carrying
`Initializing`/`Ready`/`Busy`/`Error(_)` and the `can_transition_to` method
that `control.rs` calls are not present in the source snapshot (the shipped
`agent/status.rs` holds an unrelated enum), so they are modelled from the
specification. -/
inductive AgentStatus where
  | pendingInit : AgentStatus
  | initializing : AgentStatus
  | ready : AgentStatus
  | busy : AgentStatus
  | error (msg : String) : AgentStatus
  | shutdown : AgentStatus
deriving DecidableEq

/-- Modelled from the spec: `AgentStatus::can_transition_to`, whose definition
is missing from the source snapshot (only its caller `AgentControl::transition`
ships).  The spec enumerates `PendingInit → Initializing → Ready`,
`Initializing → Error(_)`, `Ready → Busy | Shutdown`,
`Busy → Ready | Error(_) | Shutdown`, `Error(_) → Ready | Shutdown`,
`Shutdown → Shutdown`, plus every idempotent self-transition `s → s`; all
other transitions are rejected. -/
def can_transition_to : AgentStatus → AgentStatus → Bool
  | .pendingInit, .pendingInit => true
  | .pendingInit, .initializing => true
  | .initializing, .initializing => true
  | .initializing, .ready => true
  | .initializing, .error _ => true
  | .ready, .ready => true
  | .ready, .busy => true
  | .ready, .shutdown => true
  | .busy, .busy => true
  | .busy, .ready => true
  | .busy, .error _ => true
  | .busy, .shutdown => true
  | .error m, .error m2 => m == m2
  | .error _, .ready => true
  | .error _, .shutdown => true
  | .shutdown, .shutdown => true
  | _, _ => false

/-- `AgentControl::transition` from `agent/control.rs` lines 208-214: the
stored status is overwritten (and broadcast) only when `can_transition_to`
accepts; otherwise it is left unchanged and nothing is broadcast.  The second
component lists the statuses broadcast on the watch channel. -/
def transition (status next : AgentStatus) : AgentStatus × List AgentStatus :=
  if can_transition_to status next then (next, [next]) else (status, [])

/-- The transition set enumerated by claim C6, stated independently of
`can_transition_to`: the ten listed pairs plus every self-transition. -/
def allowedTransitionPerClaim (s t : AgentStatus) : Bool :=
  s == t ||
  match s, t with
  | .pendingInit, .initializing => true
  | .initializing, .ready => true
  | .initializing, .error _ => true
  | .ready, .busy => true
  | .ready, .shutdown => true
  | .busy, .ready => true
  | .busy, .error _ => true
  | .busy, .shutdown => true
  | .error _, .ready => true
  | .error _, .shutdown => true
  | _, _ => false

/-! ### Spawn guards (`agent/guards.rs`)

`Guards` holds an atomic `total_count` and a mutex-protected `HashSet` of
thread ids.  Every operation the claim interleaves — the CAS loop of
`try_increment_spawned` (which linearizes to one atomic test-and-increment),
the unconditional `fetch_add`, `SpawnReservation::commit`, the reservation
destructor, and `release_spawned_thread` — acts as one atomic update of the
shared state, so a finite interleaving is a finite sequence of these steps.
Thread ids are naturals; the `HashSet` is a duplicate-free list whose insert
is a no-op on a present id, exactly as `HashSet::insert`.  The fields
`active_reservations`, `committed` and `released` are ghost counters: live
uncommitted reservations, commits performed, and releases that found their id
registered. -/
structure GuardsState where
  total_count : Nat
  threads_set : List Nat
  active_reservations : Nat
  committed : Nat
  released : Nat
deriving DecidableEq

def guardsInit : GuardsState :=
  { total_count := 0, threads_set := [], active_reservations := 0,
    committed := 0, released := 0 }

inductive GuardError where
  | agentLimitReached (max_threads : Nat) : GuardError
deriving DecidableEq

/-- `Guards::reserve_spawn_slot` (`agent/guards.rs` lines 30-46): with
`Some(max_threads)` the CAS loop of `try_increment_spawned` either moves the
counter from some `k < max_threads` to `k + 1` and grants a reservation, or
fails with `AgentLimitReached`; with `None` it increments unconditionally. -/
def reserve_spawn_slot (s : GuardsState) (max_threads : Option Nat) :
    GuardsState × Except GuardError Unit :=
  match max_threads with
  | some n =>
    if s.total_count < n then
      ({ s with total_count := s.total_count + 1,
                active_reservations := s.active_reservations + 1 }, .ok ())
    else (s, .error (.agentLimitReached n))
  | none =>
    ({ s with total_count := s.total_count + 1,
              active_reservations := s.active_reservations + 1 }, .ok ())

/-- `SpawnReservation::commit` plus `Guards::register_spawned_thread`: the
thread id is inserted into the set and the reservation is deactivated, so its
destructor no longer decrements. -/
def commit_reservation (s : GuardsState) (tid : Nat) : GuardsState :=
  { s with
    threads_set :=
      if tid ∈ s.threads_set then s.threads_set else tid :: s.threads_set,
    active_reservations := s.active_reservations - 1,
    committed := s.committed + 1 }

/-- `Drop for SpawnReservation` on a still-active (uncommitted) reservation:
`total_count` is decremented exactly once. -/
def drop_reservation (s : GuardsState) : GuardsState :=
  { s with
    total_count := s.total_count - 1,
    active_reservations := s.active_reservations - 1 }

/-- `Guards::release_spawned_thread` (`agent/guards.rs` lines 48-59): the
counter is decremented only when the id was registered in the set. -/
def release_spawned_thread (s : GuardsState) (tid : Nat) : GuardsState :=
  if tid ∈ s.threads_set then
    { s with
      threads_set := s.threads_set.erase tid,
      total_count := s.total_count - 1,
      released := s.released + 1 }
  else s

inductive GuardOp where
  | reserve (max_threads : Option Nat) : GuardOp
  | commitRes (thread_id : Nat) : GuardOp
  | dropRes : GuardOp
  | release (thread_id : Nat) : GuardOp
deriving DecidableEq

/-- One atomic step of an interleaving.  Committing or dropping requires a
live reservation (`none` marks an interleaving that no client can produce:
only a granted reservation can be committed or dropped). -/
def guardStep (s : GuardsState) (op : GuardOp) : Option GuardsState :=
  match op with
  | .reserve max_threads => some (reserve_spawn_slot s max_threads).1
  | .commitRes tid =>
    if s.active_reservations = 0 then none else some (commit_reservation s tid)
  | .dropRes =>
    if s.active_reservations = 0 then none else some (drop_reservation s)
  | .release tid => some (release_spawned_thread s tid)

def guardRun (s : GuardsState) : List GuardOp → Option GuardsState
  | [] => some s
  | op :: rest =>
    match guardStep s op with
    | none => none
    | some s2 => guardRun s2 rest

/-- Every `reserve` in the trace passes `Some N`. -/
def reservesUse (N : Nat) (ops : List GuardOp) : Bool :=
  ops.all (fun op =>
    match op with
    | .reserve m => m == some N
    | _ => true)

/-- Inductive invariant of the guard state under bounded reservations. -/
def GuardsInv (N : Nat) (s : GuardsState) : Prop :=
  s.total_count ≤ N ∧
  s.total_count + s.released = s.active_reservations + s.committed ∧
  s.threads_set.length + s.released ≤ s.committed ∧
  s.threads_set.Nodup

/-! ### Chunk → ResponseEvent projector (`model/provider.rs` lines 80-176)

`chunk_stream_to_response_events` folds a chunk stream through a state
holding a monotone text index, a `BTreeMap<String, FunctionCallBuffer>` of
buffered calls, the last active call id and an end-turn flag.  The B-tree map
is embedded as an association list kept sorted by key, so iterating it (as
`values()` does) visits entries in ascending key order; Rust compares
`String`s byte-lexicographically, which agrees with the character order used
here on ASCII ids. -/
structure ContentDeltaChunk where
  text : String
deriving DecidableEq

structure ToolCallDelta where
  id : Option String
  name : Option String
  arguments : Option String
deriving DecidableEq

inductive Chunk where
  | content (delta : ContentDeltaChunk) : Chunk
  | toolCall (delta : ToolCallDelta) : Chunk
  | messageStart : Chunk
  | messageDelta : Chunk
  | messageStop : Chunk
  | unknown : Chunk
deriving DecidableEq

structure FunctionCallBuffer where
  id : String
  name : String
  arguments : String
deriving DecidableEq

inductive ResponseEvent where
  | contentDelta (text : String) (index : Nat) : ResponseEvent
  | functionCall (id : String) (call_type : String) (name : String)
      (arguments : String) : ResponseEvent
  | endTurn : ResponseEvent
  | error (message : String) : ResponseEvent
deriving DecidableEq

structure ProjectorState where
  text_index : Nat
  function_calls : List (String × FunctionCallBuffer)
  active_call_id : Option String
  emitted_end_turn : Bool
deriving DecidableEq

def projectorInit : ProjectorState :=
  { text_index := 0, function_calls := [], active_call_id := none,
    emitted_end_turn := false }

/-- `BTreeMap::entry(call_id).or_insert_with(default)` followed by the
in-place mutation `upd`; the list stays sorted by key, mirroring the B-tree's
in-order layout.  Keys are compared lexicographically on their character
lists, which is the order `BTreeMap<String, _>` uses (Rust compares the
UTF-8 bytes, and UTF-8 byte order agrees with code-point order). -/
def btreeUpdate (k : String) (upd : FunctionCallBuffer → FunctionCallBuffer)
    (dflt : FunctionCallBuffer) :
    List (String × FunctionCallBuffer) → List (String × FunctionCallBuffer)
  | [] => [(k, upd dflt)]
  | (k2, v) :: rest =>
    if k.toList < k2.toList then (k, upd dflt) :: (k2, v) :: rest
    else if k = k2 then (k2, upd v) :: rest
    else (k2, v) :: btreeUpdate k upd dflt rest

/-- The merge performed in the `Chunk::ToolCall` arm: `name` overwrites,
`arguments` appends. -/
def applyToolCallDelta (delta : ToolCallDelta) (buf : FunctionCallBuffer) :
    FunctionCallBuffer :=
  { buf with
    name := match delta.name with | some n => n | none => buf.name,
    arguments :=
      match delta.arguments with
      | some a => buf.arguments ++ a
      | none => buf.arguments }

/-- The `Chunk::MessageStop` emission loop: each buffered call with a
non-empty name becomes a `FunctionCall` event, in buffer (map-value) order. -/
def emitBuffered (calls : List (String × FunctionCallBuffer)) :
    List ResponseEvent :=
  (calls.filter (fun kv => !(kv.2.name == ""))).map
    (fun kv => .functionCall kv.2.id "function" kv.2.name kv.2.arguments)

/-- One iteration of the `while let Some(chunk)` loop of
`chunk_stream_to_response_events`, returning the new state and the events
yielded for this chunk. -/
def processChunk (st : ProjectorState) (c : Chunk) :
    ProjectorState × List ResponseEvent :=
  match c with
  | .content delta =>
    if delta.text = "" then (st, [])
    else
      ({ st with text_index := st.text_index + 1 },
        [.contentDelta delta.text st.text_index])
  | .toolCall delta =>
    let call_id :=
      match delta.id with
      | some i => i
      | none =>
        match st.active_call_id with
        | some i => i
        | none => "tool_call_" ++ toString (st.function_calls.length + 1)
    ({ st with
       active_call_id := some call_id,
       function_calls :=
         btreeUpdate call_id (applyToolCallDelta delta)
           { id := call_id, name := "", arguments := "" } st.function_calls },
      [])
  | .messageStop =>
    ({ st with
       function_calls := [], active_call_id := none, emitted_end_turn := true },
      emitBuffered st.function_calls ++ [.endTurn])
  | _ => (st, [])

def processChunks (st : ProjectorState) :
    List Chunk → ProjectorState × List ResponseEvent
  | [] => (st, [])
  | c :: rest =>
    let step := processChunk st c
    let next := processChunks step.1 rest
    (next.1, step.2 ++ next.2)

/-- The flush after the chunk stream ends (`model/provider.rs` lines
156-174): leftover buffered calls are emitted, and `EndTurn` is appended only
when no `MessageStop` already emitted one. -/
def finishStream (st : ProjectorState) : List ResponseEvent :=
  (if st.function_calls.isEmpty then [] else emitBuffered st.function_calls) ++
    (if st.emitted_end_turn then [] else [.endTurn])

/-- `chunk_stream_to_response_events` on a finite stream of Ok chunks. -/
def chunk_stream_to_response_events (chunks : List Chunk) : List ResponseEvent :=
  let run := processChunks projectorInit chunks
  run.2 ++ finishStream run.1

/-- Modelled from the spec wording of claim C2 for comparison: the buffer
keeps calls in insertion order (the order in which each call's id was first
observed) instead of B-tree key order. -/
def insertionOrderUpdate (k : String)
    (upd : FunctionCallBuffer → FunctionCallBuffer) (dflt : FunctionCallBuffer) :
    List (String × FunctionCallBuffer) → List (String × FunctionCallBuffer)
  | [] => [(k, upd dflt)]
  | (k2, v) :: rest =>
    if k = k2 then (k2, upd v) :: rest
    else (k2, v) :: insertionOrderUpdate k upd dflt rest

/-- Modelled from the spec wording of claim C2: the projector with an
insertion-ordered buffer; identical to `processChunk` otherwise. -/
def processChunkSpec (st : ProjectorState) (c : Chunk) :
    ProjectorState × List ResponseEvent :=
  match c with
  | .content delta =>
    if delta.text = "" then (st, [])
    else
      ({ st with text_index := st.text_index + 1 },
        [.contentDelta delta.text st.text_index])
  | .toolCall delta =>
    let call_id :=
      match delta.id with
      | some i => i
      | none =>
        match st.active_call_id with
        | some i => i
        | none => "tool_call_" ++ toString (st.function_calls.length + 1)
    ({ st with
       active_call_id := some call_id,
       function_calls :=
         insertionOrderUpdate call_id (applyToolCallDelta delta)
           { id := call_id, name := "", arguments := "" } st.function_calls },
      [])
  | .messageStop =>
    ({ st with
       function_calls := [], active_call_id := none, emitted_end_turn := true },
      emitBuffered st.function_calls ++ [.endTurn])
  | _ => (st, [])

def processChunksSpec (st : ProjectorState) :
    List Chunk → ProjectorState × List ResponseEvent
  | [] => (st, [])
  | c :: rest =>
    let step := processChunkSpec st c
    let next := processChunksSpec step.1 rest
    (next.1, step.2 ++ next.2)

def chunk_stream_to_response_events_spec (chunks : List Chunk) :
    List ResponseEvent :=
  let run := processChunksSpec projectorInit chunks
  run.2 ++ finishStream run.1

/-- The projector-state invariant: buffered calls are sorted by id in strictly
ascending order and each buffer's `id` field equals its map key. -/
def BufferInv (st : ProjectorState) : Prop :=
  st.function_calls.Pairwise (fun a b => a.1.toList < b.1.toList) ∧
    ∀ kv ∈ st.function_calls, kv.2.id = kv.1

/-! ### SSE turn executor (`turn/sse_executor.rs`)

`run_sse_interaction` drives up to 10 model iterations.  The model is an
oracle: iteration `i` consumes the `i`-th event script (the `ResponseEvent`
stream the provider returns for that request).  Tool handlers are functions
`ToolInvocation → Except String ToolOutput`; the registry is an association
list.  Token usage (always `Usage::default()` in the source) is omitted. -/
structure ToolCallFunction where
  name : String
  arguments : String
deriving DecidableEq

structure ModelToolCall where
  id : String
  call_type : String
  function : ToolCallFunction
deriving DecidableEq

inductive Message where
  | system (text : String) : Message
  | user (text : String) : Message
  | assistant (content : Option String)
      (tool_calls : Option (List ModelToolCall)) : Message
  | tool (tool_call_id : String) (content : String) : Message
deriving DecidableEq

/-- `FunctionCallEvent` from `protocol/src/protocol/models.rs` with its
nested `FunctionCall` payload flattened. -/
structure FunctionCallEvent where
  id : String
  call_type : String
  name : String
  arguments : String
deriving DecidableEq

/-- Modelled from the spec: the `ToolInvocation {id, name, arguments}` record
the SSE executor builds; the `tools/context.rs` revision shipped in the
snapshot declares a different (payload-based) invocation shape. -/
structure ToolInvocation where
  id : String
  name : String
  arguments : String
deriving DecidableEq

/-- Modelled from the spec: `ToolOutput {id, content, is_error}`; the
`tools/context.rs` revision shipped in the snapshot declares an enum-shaped
output instead. -/
structure ToolOutput where
  id : String
  content : String
  is_error : Bool
deriving DecidableEq

inductive TurnError where
  | modelError (message : String) : TurnError
  | toolError (message : String) : TurnError
  | toolNotFound (name : String) : TurnError
  | sessionError (message : String) : TurnError
deriving DecidableEq

structure TurnResult where
  content : String
  success : Bool
deriving DecidableEq

/-- A tool registry: name → handler.  Handler errors are carried as their
display string (`err.to_string()` in the source). -/
def ToolRegistry := List (String × (ToolInvocation → Except String ToolOutput))

/-- `ToolRegistry::get_handler`. -/
def get_handler (registry : ToolRegistry) (name : String) :
    Option (ToolInvocation → Except String ToolOutput) :=
  match registry.find? (fun kv => kv.1 == name) with
  | some kv => some kv.2
  | none => none

/-- `SseTurnExecutor::execute_tool_call` (`turn/sse_executor.rs` lines
198-219): missing handler → `ToolNotFound`; handler error → `ToolError`
(propagated by `?` in the caller); on success an empty output id is replaced
by the call id. -/
def execute_tool_call (registry : ToolRegistry) (call : FunctionCallEvent) :
    Except TurnError ToolOutput :=
  match get_handler registry call.name with
  | none => .error (.toolNotFound call.name)
  | some handler =>
    match handler { id := call.id, name := call.name, arguments := call.arguments } with
    | .error e => .error (.toolError e)
    | .ok output =>
      if output.id = "" then .ok { output with id := call.id } else .ok output

/-- The `while let Some(event) = stream.next()` loop of one iteration:
accumulate non-empty content deltas, buffer function calls in arrival order,
stop at `EndTurn` (or stream end), fail on an `Error` event. -/
def consumeStream (events : List ResponseEvent) (delta : String)
    (calls : List FunctionCallEvent) :
    Except TurnError (String × List FunctionCallEvent) :=
  match events with
  | [] => .ok (delta, calls)
  | ev :: rest =>
    match ev with
    | .contentDelta text _ =>
      if text = "" then consumeStream rest delta calls
      else consumeStream rest (delta ++ text) calls
    | .functionCall id call_type name args =>
      consumeStream rest delta (calls ++ [⟨id, call_type, name, args⟩])
    | .endTurn => .ok (delta, calls)
    | .error m => .error (.modelError m)

def toModelToolCall (call : FunctionCallEvent) : ModelToolCall :=
  { id := call.id, call_type := call.call_type,
    function := { name := call.name, arguments := call.arguments } }

/-- The `for call in function_calls` loop (`turn/sse_executor.rs` lines
156-170): each successful call appends one `Tool` message (with the output id
falling back to the call id when empty); the first failing call aborts via
`?`, keeping the messages appended before it. -/
def execToolLoop (registry : ToolRegistry) :
    List FunctionCallEvent → List Message × Option TurnError
  | [] => ([], none)
  | call :: rest =>
    match execute_tool_call registry call with
    | .error e => ([], some e)
    | .ok output =>
      let out_id := if output.id = "" then call.id else output.id
      let next := execToolLoop registry rest
      (Message.tool out_id output.content :: next.1, next.2)

structure SseOutcome where
  result : Except TurnError TurnResult
  messages : List Message
  session_appends : List Message
  model_calls : Nat

/-- The `Assistant` message built at `turn/sse_executor.rs` lines 119-135:
content present only for a non-empty delta, tool calls present only when
some were buffered. -/
def assistantMessage (delta : String) (calls : List FunctionCallEvent) :
    Message :=
  Message.assistant (if delta = "" then none else some delta)
    (if calls.isEmpty then none else some (calls.map toModelToolCall))

/-- The `for _ in 0..max_iterations` loop of `run_sse_interaction`.
`session_appends` records the messages appended to the shared session;
`model_calls` counts `responses_stream` calls. -/
def runSseLoop (registry : ToolRegistry) (scripts : List (List ResponseEvent))
    (messages : List Message) (final_content : String)
    (appends : List Message) (model_calls : Nat) : Nat → SseOutcome
  | 0 =>
    { result := .error (.sessionError "too many tool call iterations"),
      messages := messages, session_appends := appends,
      model_calls := model_calls }
  | fuel + 1 =>
    match consumeStream (scripts.headD []) "" [] with
    | .error e =>
      { result := .error e, messages := messages, session_appends := appends,
        model_calls := model_calls + 1 }
    | .ok (delta, calls) =>
      if calls.isEmpty then
        { result := .ok { content := final_content ++ delta, success := true },
          messages := messages ++ [assistantMessage delta calls],
          session_appends := appends ++ [assistantMessage delta calls],
          model_calls := model_calls + 1 }
      else
        match execToolLoop registry calls with
        | (toolMsgs, some e) =>
          { result := .error e,
            messages := messages ++ [assistantMessage delta calls] ++ toolMsgs,
            session_appends := appends ++ [assistantMessage delta calls] ++ toolMsgs,
            model_calls := model_calls + 1 }
        | (toolMsgs, none) =>
          runSseLoop registry scripts.tail
            (messages ++ [assistantMessage delta calls] ++ toolMsgs)
            (final_content ++ delta)
            (appends ++ [assistantMessage delta calls] ++ toolMsgs)
            (model_calls + 1) fuel

/-- `SseTurnExecutor::run_sse_interaction` with `max_iterations = 10`. -/
def run_sse_interaction (registry : ToolRegistry)
    (scripts : List (List ResponseEvent)) (messages : List Message) :
    SseOutcome :=
  runSseLoop registry scripts messages "" [] 0 10

/-- One iteration leaves the loop running: the stream yields buffered tool
calls and every one of them executes successfully. -/
def iterationContinues (registry : ToolRegistry)
    (script : List ResponseEvent) : Bool :=
  match consumeStream script "" [] with
  | .error _ => false
  | .ok (_, calls) => !calls.isEmpty && (execToolLoop registry calls).2.isNone

/-! ### Turn executor (`turn/executor.rs`) -/
/-- `TurnConfig` from `turn/executor.rs` lines 49-56 (the `f32` temperature
field is omitted: no embedded operation reads it). -/
structure TurnConfig where
  model : String
  max_tokens : Option Nat
  system_prompt : Option String
  enable_tools : Bool

/-- `Session::get_history` (`session/mod.rs` lines 30-36): the whole history
when it has at most `limit` entries, else the last `limit` entries. -/
def get_history (history : List Message) (limit : Nat) : List Message :=
  if history.length ≤ limit then history
  else history.drop (history.length - limit)

/-- `TurnExecutor::build_messages` (`turn/executor.rs` lines 153-165). -/
def build_messages (config : TurnConfig) (history : List Message)
    (input : String) : List Message :=
  (match config.system_prompt with
   | some s => [Message.system s]
   | none => []) ++ get_history history 100 ++ [Message.user input]

structure TurnOutcome where
  result : Except TurnError TurnResult
  new_history : List Message

/-- `TurnExecutor::run_turn`: builds the message list and delegates to the
SSE executor; the session history grows only by what the SSE loop appends
(event emission is not modelled). -/
def run_turn (registry : ToolRegistry) (scripts : List (List ResponseEvent))
    (config : TurnConfig) (history : List Message) (input : String) :
    TurnOutcome :=
  let sse := run_sse_interaction registry scripts
    (build_messages config history input)
  { result := sse.result, new_history := history ++ sse.session_appends }

def isAssistantOrTool : Message → Bool
  | .assistant _ _ => true
  | .tool _ _ => true
  | _ => false

/-! ### Thread registry and spawn (`thread_manager.rs`, `agent/control.rs`)

`ThreadId::new()` draws a fresh UUID; freshness is modelled with a counter.
`created_at` (a wall-clock timestamp) is omitted.  The `HashMap` insert is a
prepend, so lookups see the newest binding for an id first, exactly as an
overwriting insert does. -/
/-- `MAX_THREAD_SPAWN_DEPTH` from `agent/guards.rs` line 9. -/
def MAX_THREAD_SPAWN_DEPTH : Nat := 1

/-- `exceeds_thread_spawn_depth_limit` from `agent/guards.rs` lines 12-14. -/
def exceeds_thread_spawn_depth_limit (depth : Nat) : Bool :=
  decide (depth > MAX_THREAD_SPAWN_DEPTH)

structure ThreadInfo where
  thread_id : Nat
  parent_thread_id : Option Nat
  depth : Nat
  role : String
  task : String
deriving DecidableEq

structure ManagerState where
  threads : List (Nat × ThreadInfo)
  next_thread_id : Nat
deriving DecidableEq

/-- `ThreadManagerState::spawn_thread` (`thread_manager.rs` lines 49-72). -/
def spawn_thread (m : ManagerState) (parent_thread_id : Nat) (depth : Nat)
    (role task : String) : ManagerState × Nat :=
  let tid := m.next_thread_id
  ({ threads :=
      (tid, { thread_id := tid, parent_thread_id := some parent_thread_id,
              depth := depth, role := role, task := task }) :: m.threads,
     next_thread_id := tid + 1 }, tid)

/-- `ThreadManagerState::get_thread`. -/
def get_thread (m : ManagerState) (tid : Nat) : Option ThreadInfo :=
  match m.threads.find? (fun kv => kv.1 == tid) with
  | some kv => some kv.2
  | none => none

inductive SpawnError where
  | emptyTask : SpawnError
  | depthExceeded (depth : Nat) : SpawnError
  | managerDropped : SpawnError
  | limitReached (max_threads : Nat) : SpawnError
deriving DecidableEq

/-- The state `AgentControl::spawn_agent` touches: the shared guards, the
weak thread-manager reference (`none` when the manager was dropped) and the
agent's root thread id. -/
structure ControlState where
  guards : GuardsState
  manager : Option ManagerState
  root_thread_id : Nat
deriving DecidableEq

/-- `AgentControl::spawn_agent` (`agent/control.rs` lines 149-198): reject a
whitespace-only task (`task.trim().is_empty()`, i.e. every character is
whitespace), reject a depth above `MAX_THREAD_SPAWN_DEPTH`, fail when the
manager reference is gone, reserve a spawn slot (propagating
`AgentLimitReached`), default the parent to the agent's root thread id and
the role to "default", insert the new thread and commit the reservation to
it.  The spawn-begin/end event emission is not modelled. -/
def spawn_agent (cs : ControlState) (task : String) (role : Option String)
    (parent_thread_id : Option Nat) (depth : Nat)
    (max_threads : Option Nat) : ControlState × Except SpawnError Nat :=
  if task.toList.all (fun c => c.isWhitespace) then
    (cs, .error .emptyTask)
  else if exceeds_thread_spawn_depth_limit depth then
    (cs, .error (.depthExceeded depth))
  else
    match cs.manager with
    | none => (cs, .error .managerDropped)
    | some manager =>
      let reserved := reserve_spawn_slot cs.guards max_threads
      match reserved.2 with
      | .error (.agentLimitReached n) =>
        ({ cs with guards := reserved.1 }, .error (.limitReached n))
      | .ok _ =>
        let parent := parent_thread_id.getD cs.root_thread_id
        let role2 := role.getD "default"
        let spawned := spawn_thread manager parent depth role2 task
        let guards2 := commit_reservation reserved.1 spawned.2
        ({ cs with guards := guards2, manager := some spawned.1 }, .ok spawned.2)

theorem hasPathTraversalList_of_mem (items : List Json) (j : Json)
    (hmem : j ∈ items) (hj : has_path_traversal j = true) :
    hasPathTraversalList items = true := by
  induction items with
  | nil => cases hmem
  | cons head rest ih =>
    rcases List.mem_cons.mp hmem with h | h
    · subst h; simp [hasPathTraversalList, hj]
    · simp [hasPathTraversalList, ih h]

theorem hasPathTraversalFields_of_mem (fields : List (String × Json)) (k : String)
    (j : Json) (hmem : (k, j) ∈ fields) (hj : has_path_traversal j = true) :
    hasPathTraversalFields fields = true := by
  induction fields with
  | nil => cases hmem
  | cons head rest ih =>
    rcases List.mem_cons.mp hmem with h | h
    · rw [← h]; simp [hasPathTraversalFields, hj]
    · simp [hasPathTraversalFields, ih h]

theorem has_path_traversal_of_pred (v : Json) (h : HasTraversalStringValue v) :
    has_path_traversal v = true := by
  induction h with
  | strCase hs => exact hs
  | arrCase hmem _ ih =>
    exact hasPathTraversalList_of_mem _ _ hmem ih
  | objCase hmem _ ih =>
    exact hasPathTraversalFields_of_mem _ _ _ hmem ih

theorem mem_of_hasPathTraversalList (items : List Json)
    (h : hasPathTraversalList items = true) :
    ∃ j ∈ items, has_path_traversal j = true := by
  induction items with
  | nil => simp [hasPathTraversalList] at h
  | cons head rest ih =>
    rcases Bool.or_eq_true_iff.mp (by simpa [hasPathTraversalList] using h) with h | h
    · exact ⟨head, List.mem_cons_self head rest, h⟩
    · obtain ⟨j', hmem, hj'⟩ := ih h
      exact ⟨j', List.mem_cons_of_mem _ hmem, hj'⟩

theorem mem_of_hasPathTraversalFields (fields : List (String × Json))
    (h : hasPathTraversalFields fields = true) :
    ∃ k j, (k, j) ∈ fields ∧ has_path_traversal j = true := by
  induction fields with
  | nil => simp [hasPathTraversalFields] at h
  | cons head rest ih =>
    rcases Bool.or_eq_true_iff.mp (by simpa [hasPathTraversalFields] using h) with h | h
    · exact ⟨head.1, head.2, by simp, h⟩
    · obtain ⟨k', j', hmem, hj'⟩ := ih h
      exact ⟨k', j', List.mem_cons_of_mem _ hmem, hj'⟩

theorem json_sizeOf_lt_of_mem_arr {j : Json} {items : List Json}
    (h : j ∈ items) : sizeOf j < sizeOf (Json.arr items) := by
  have := List.sizeOf_lt_of_mem h
  simp only [Json.arr.sizeOf_spec]
  omega

theorem json_sizeOf_lt_of_mem_obj {k : String} {j : Json}
    {fields : List (String × Json)} (h : (k, j) ∈ fields) :
    sizeOf j < sizeOf (Json.obj fields) := by
  have h1 := List.sizeOf_lt_of_mem h
  have h2 : sizeOf (k, j) = 1 + sizeOf k + sizeOf j := rfl
  simp only [Json.obj.sizeOf_spec]
  omega

theorem pred_of_has_path_traversal :
    ∀ v : Json, has_path_traversal v = true → HasTraversalStringValue v
  | .null, h => by simp [has_path_traversal] at h
  | .bool _, h => by simp [has_path_traversal] at h
  | .num _, h => by simp [has_path_traversal] at h
  | .str _, h => .strCase (by simpa [has_path_traversal] using h)
  | .arr items, h => by
    obtain ⟨j, hmem, hj⟩ :=
      mem_of_hasPathTraversalList items (by simpa [has_path_traversal] using h)
    exact .arrCase hmem
      (have : sizeOf j < sizeOf (Json.arr items) := json_sizeOf_lt_of_mem_arr hmem
       pred_of_has_path_traversal j hj)
  | .obj fields, h => by
    obtain ⟨k, j, hmem, hj⟩ :=
      mem_of_hasPathTraversalFields fields (by simpa [has_path_traversal] using h)
    exact .objCase hmem
      (have : sizeOf j < sizeOf (Json.obj fields) := json_sizeOf_lt_of_mem_obj hmem
       pred_of_has_path_traversal j hj)
termination_by v => sizeOf v
decreasing_by
  all_goals
    simp only [Json.arr.sizeOf_spec, Json.obj.sizeOf_spec] at this ⊢
  all_goals omega

/-- Claim C7: for every ToolCall whose arguments JSON contains, anywhere in a
string value (including strings nested inside arrays and objects), the
substring "../" or "..\", `validate_tool_call` returns the PathTraversal
error (under every approval mode). -/
theorem validate_tool_call_path_traversal (mode : ApprovalMode) (call : ToolCall)
    (h : HasTraversalStringValue call.args) :
    validate_tool_call mode call = .error .pathTraversal := by
  unfold validate_tool_call
  rw [has_path_traversal_of_pred call.args h]
  rfl

/-- Witness for C7: a nested argument object whose inner array holds a string
containing "../" is rejected with PathTraversal. -/
theorem validate_tool_call_path_traversal_witness :
    validate_tool_call .auto
      { tool_name := "read_file",
        args := .obj [("paths", .arr [.str "a", .str "../etc/passwd"])] } =
      .error .pathTraversal :=
  validate_tool_call_path_traversal .auto
    { tool_name := "read_file",
      args := .obj [("paths", .arr [.str "a", .str "../etc/passwd"])] }
    (.objCase (List.mem_cons_self _ _)
      (.arrCase
        (show Json.str "../etc/passwd" ∈ [Json.str "a", Json.str "../etc/passwd"] by
          simp)
        (.strCase (by decide))))

/-- Claim C9: the path-traversal check inspects only string values; a ToolCall
with no string value holding a traversal sequence (in particular one whose
sequence occurs only in an object key) passes `has_path_traversal`, and
`validate_tool_call` does not return PathTraversal for it. -/
theorem validate_tool_call_no_string_traversal (mode : ApprovalMode) (call : ToolCall)
    (h : ¬ HasTraversalStringValue call.args) :
    has_path_traversal call.args = false ∧
      validate_tool_call mode call ≠ .error .pathTraversal := by
  have hfalse : has_path_traversal call.args = false := by
    cases hb : has_path_traversal call.args
    · rfl
    · exact absurd (pred_of_has_path_traversal call.args hb) h
  refine ⟨hfalse, ?_⟩
  unfold validate_tool_call
  rw [hfalse]
  simp only [Bool.false_eq_true, if_false]
  have hshell : ∀ cmd, validate_shell_command cmd ≠ .error .pathTraversal := by
    intro cmd
    unfold validate_shell_command
    split <;> simp
  cases htool : (call.tool_name == "shell")
  · cases mode <;> simp [htool, check_tool_use]
  · rcases hcmd : jsonGetStr call.args "command" with _ | cmd
    · simp [htool, hcmd]
    · rcases hv : validate_shell_command cmd with e | r
      · simp only [htool, hcmd, if_true, hv]
        intro hcontra
        have hee : e = ValidationError.pathTraversal := by simpa using hcontra
        subst hee
        exact hshell cmd hv
      · cases mode <;> simp [htool, hcmd, hv, check_tool_use]

/-- Witness for C9: a call whose only "../" occurrence sits in an object key
is not rejected as path traversal. -/
theorem validate_tool_call_no_string_traversal_witness :
    has_path_traversal (.obj [("../secret", .str "value")]) = false ∧
      validate_tool_call .auto
        { tool_name := "read_file", args := .obj [("../secret", .str "value")] } ≠
        .error .pathTraversal :=
  validate_tool_call_no_string_traversal .auto
    { tool_name := "read_file", args := .obj [("../secret", .str "value")] }
    (by
      intro h
      cases h with
      | objCase hmem h =>
        rcases List.mem_singleton.mp hmem with hkv
        cases hkv
        cases h with
        | strCase hs => exact absurd hs (by decide))

/-- Claim C8: the Alphanumeric9 normalization returns exactly the ASCII
alphanumeric characters of the input in order, truncated to at most 9 and
right-padded with '0' to exactly 9 characters; the result always has length 9
and consists only of ASCII alphanumeric characters. -/
theorem normalize_tool_call_id_for_mistral_alphanumeric9 (id : String) :
    (normalize_tool_call_id_for_mistral id).toList =
      (id.toList.filter isAsciiAlphanumeric).take 9 ++
        List.replicate (9 - ((id.toList.filter isAsciiAlphanumeric).take 9).length) '0' ∧
    (normalize_tool_call_id_for_mistral id).toList.length = 9 ∧
    ∀ c ∈ (normalize_tool_call_id_for_mistral id).toList, isAsciiAlphanumeric c = true := by
  have hrepr : (normalize_tool_call_id_for_mistral id).toList =
      (id.toList.filter isAsciiAlphanumeric).take 9 ++
        List.replicate (9 - ((id.toList.filter isAsciiAlphanumeric).take 9).length) '0' := rfl
  refine ⟨hrepr, ?_, ?_⟩
  · rw [hrepr]
    have hle : ((id.toList.filter isAsciiAlphanumeric).take 9).length ≤ 9 := by
      simp
    simp only [List.length_append, List.length_replicate]
    omega
  · rw [hrepr]
    intro c hc
    rcases List.mem_append.mp hc with hc | hc
    · exact (List.mem_filter.mp (List.mem_of_mem_take hc)).2
    · rw [List.eq_of_mem_replicate hc]
      decide

/-- Claim C6: the status machine accepts exactly the enumerated transitions
plus idempotent self-transitions, and a rejected transition leaves the stored
status unchanged and broadcasts nothing. -/
theorem can_transition_to_exactly_enumerated (s t : AgentStatus) :
    can_transition_to s t = allowedTransitionPerClaim s t ∧
      (allowedTransitionPerClaim s t = false → transition s t = (s, [])) := by
  constructor
  · cases s <;> cases t <;>
      simp [can_transition_to, allowedTransitionPerClaim, BEq.beq]
  · intro hreject
    have hcan : can_transition_to s t = false := by
      cases s <;> cases t <;>
        simp_all [can_transition_to, allowedTransitionPerClaim, BEq.beq]
    simp [transition, hcan]

/-- Witness for C6: `Ready → PendingInit` is outside the enumerated set, and
`transition` leaves the status at `Ready` without broadcasting. -/
theorem can_transition_to_exactly_enumerated_witness :
    allowedTransitionPerClaim .ready .pendingInit = false ∧
      transition .ready .pendingInit = (.ready, []) :=
  ⟨by decide,
    (can_transition_to_exactly_enumerated .ready .pendingInit).2 (by decide)⟩

theorem guardsInit_inv (N : Nat) : GuardsInv N guardsInit := by
  simp [GuardsInv, guardsInit]

theorem guardStep_inv {N : Nat} {s s2 : GuardsState} {op : GuardOp}
    (hop : ∀ m, op = .reserve m → m = some N)
    (hinv : GuardsInv N s) (hstep : guardStep s op = some s2) :
    GuardsInv N s2 := by
  obtain ⟨hle, heq, hcard, hnodup⟩ := hinv
  cases op with
  | reserve m =>
    have hm : m = some N := hop m rfl
    subst hm
    by_cases hlt : s.total_count < N
    · simp only [guardStep, reserve_spawn_slot, hlt, if_true,
        Option.some.injEq] at hstep
      subst hstep
      refine ⟨?_, ?_, ?_, ?_⟩ <;> simp only [GuardsInv]
      · omega
      · omega
      · exact hcard
      · exact hnodup
    · simp only [guardStep, reserve_spawn_slot, hlt, if_false,
        Option.some.injEq] at hstep
      subst hstep
      exact ⟨hle, heq, hcard, hnodup⟩
  | commitRes tid =>
    by_cases hact : s.active_reservations = 0
    · simp [guardStep, hact] at hstep
    · simp only [guardStep, hact, if_false, Option.some.injEq] at hstep
      subst hstep
      by_cases hmem : tid ∈ s.threads_set
      · refine ⟨?_, ?_, ?_, ?_⟩ <;>
          simp only [GuardsInv, commit_reservation, hmem, if_true]
        · exact hle
        · omega
        · omega
        · exact hnodup
      · refine ⟨?_, ?_, ?_, ?_⟩ <;>
          simp only [GuardsInv, commit_reservation, hmem, if_false]
        · exact hle
        · omega
        · simp only [List.length_cons]
          omega
        · exact List.nodup_cons.mpr ⟨hmem, hnodup⟩
  | dropRes =>
    by_cases hact : s.active_reservations = 0
    · simp [guardStep, hact] at hstep
    · simp only [guardStep, hact, if_false, Option.some.injEq] at hstep
      subst hstep
      refine ⟨?_, ?_, ?_, ?_⟩ <;> simp only [GuardsInv, drop_reservation]
      · omega
      · omega
      · exact hcard
      · exact hnodup
  | release tid =>
    simp only [guardStep, Option.some.injEq] at hstep
    subst hstep
    by_cases hmem : tid ∈ s.threads_set
    · have hlen : (s.threads_set.erase tid).length = s.threads_set.length - 1 :=
        List.length_erase_of_mem hmem
      have hpos : 0 < s.threads_set.length := List.length_pos_of_mem hmem
      refine ⟨?_, ?_, ?_, ?_⟩ <;>
        simp only [GuardsInv, release_spawned_thread, hmem, if_true]
      · omega
      · omega
      · rw [hlen]
        omega
      · exact hnodup.erase tid
    · simp only [release_spawned_thread, hmem, if_false]
      exact ⟨hle, heq, hcard, hnodup⟩

theorem guardRun_inv {N : Nat} {s s2 : GuardsState} {ops : List GuardOp}
    (hops : reservesUse N ops = true)
    (hinv : GuardsInv N s) (hrun : guardRun s ops = some s2) :
    GuardsInv N s2 := by
  induction ops generalizing s with
  | nil =>
    simp [guardRun] at hrun
    rwa [← hrun]
  | cons op rest ih =>
    unfold guardRun at hrun
    cases hstep : guardStep s op with
    | none => rw [hstep] at hrun; cases hrun
    | some s1 =>
      rw [hstep] at hrun
      have hopsrest : reservesUse N rest = true := by
        have := hops
        simp [reservesUse] at this ⊢
        exact this.2
      have hop : ∀ m, op = GuardOp.reserve m → m = some N := by
        intro m hm
        subst hm
        have := hops
        simp [reservesUse] at this
        exact this.1
      exact ih hopsrest (guardStep_inv hop hinv hstep) hrun

/-- Claim C1: for every `N` and every finite interleaving of
`reserve_spawn_slot(Some(N))`, commit, reservation drop and
`release_spawned_thread` steps, the counter `total_count` never exceeds `N`
(every instant of an interleaving is the final state of one of its prefixes,
each itself such an interleaving); a `reserve_spawn_slot(Some(N))` call fails
with `AgentLimitReached` exactly when the counter cannot move from some
`k < N` to `k + 1`; and once every reservation is resolved, `total_count`
equals the number of commits minus the releases that found their registered
thread id. -/
theorem guards_bounded_interleavings (N : Nat) (ops : List GuardOp)
    (hops : reservesUse N ops = true) :
    (∀ pre t, pre <+: ops → guardRun guardsInit pre = some t →
      t.total_count ≤ N) ∧
    (∀ s, guardRun guardsInit ops = some s → s.active_reservations = 0 →
      s.total_count + s.released = s.committed) ∧
    (∀ t : GuardsState,
      (reserve_spawn_slot t (some N)).2 = .error (.agentLimitReached N) ↔
        ¬ t.total_count < N) := by
  refine ⟨?_, ?_, ?_⟩
  · intro pre t hpre hrun
    have hopspre : reservesUse N pre = true := by
      simp only [reservesUse, List.all_eq_true] at hops ⊢
      intro op hop
      exact hops op (hpre.subset hop)
    exact (guardRun_inv hopspre (guardsInit_inv N) hrun).1
  · intro s hrun hact
    have hinv := guardRun_inv hops (guardsInit_inv N) hrun
    have := hinv.2.1
    omega
  · intro t
    unfold reserve_spawn_slot
    by_cases hlt : t.total_count < N <;> simp [hlt]

/-- Witness for C1: the trace reserve(Some 1), commit 5, release 5 keeps the
counter at or below 1 and resolves to `total_count = committed - released`. -/
theorem guards_bounded_interleavings_witness :
    (∀ pre t,
      pre <+: [GuardOp.reserve (some 1), GuardOp.commitRes 5, GuardOp.release 5] →
      guardRun guardsInit pre = some t → t.total_count ≤ 1) ∧
    (∀ s,
      guardRun guardsInit
          [GuardOp.reserve (some 1), GuardOp.commitRes 5, GuardOp.release 5] =
        some s →
      s.active_reservations = 0 → s.total_count + s.released = s.committed) ∧
    (∀ t : GuardsState,
      (reserve_spawn_slot t (some 1)).2 = .error (.agentLimitReached 1) ↔
        ¬ t.total_count < 1) :=
  guards_bounded_interleavings 1
    [GuardOp.reserve (some 1), GuardOp.commitRes 5, GuardOp.release 5]
    (by decide)

/-- Counterexample to claim C2 as stated: with call ids first observed in the
order "b" then "a", the code (BTreeMap values) emits the `FunctionCall`s in
ascending id order "a", "b", not in insertion order "b", "a" as the claim's
insertion-order reading predicts. -/
theorem chunk_stream_insertion_order_counterexample :
    chunk_stream_to_response_events
        [.toolCall { id := some "b", name := some "g", arguments := none },
         .toolCall { id := some "a", name := some "f", arguments := none },
         .messageStop] =
      [.functionCall "a" "function" "f" "",
       .functionCall "b" "function" "g" "", .endTurn] ∧
    chunk_stream_to_response_events_spec
        [.toolCall { id := some "b", name := some "g", arguments := none },
         .toolCall { id := some "a", name := some "f", arguments := none },
         .messageStop] =
      [.functionCall "b" "function" "g" "",
       .functionCall "a" "function" "f" "", .endTurn] ∧
    chunk_stream_to_response_events
        [.toolCall { id := some "b", name := some "g", arguments := none },
         .toolCall { id := some "a", name := some "f", arguments := none },
         .messageStop] ≠
      chunk_stream_to_response_events_spec
        [.toolCall { id := some "b", name := some "g", arguments := none },
         .toolCall { id := some "a", name := some "f", arguments := none },
         .messageStop] := by
  refine ⟨?_, ?_, ?_⟩ <;> decide

theorem btreeUpdate_key_mem {k : String}
    {upd : FunctionCallBuffer → FunctionCallBuffer} {dflt : FunctionCallBuffer}
    {l : List (String × FunctionCallBuffer)} {kv : String × FunctionCallBuffer}
    (h : kv ∈ btreeUpdate k upd dflt l) :
    kv.1 = k ∨ kv.1 ∈ l.map Prod.fst := by
  induction l with
  | nil =>
    simp [btreeUpdate] at h
    simp [h]
  | cons head rest ih =>
    obtain ⟨k2, v⟩ := head
    unfold btreeUpdate at h
    by_cases h1 : k.toList < k2.toList
    · rw [if_pos h1] at h
      rcases List.mem_cons.mp h with h | h
      · simp [h]
      · rcases List.mem_cons.mp h with h | h
        · simp [h]
        · refine Or.inr ?_
          rw [List.map_cons]
          exact List.mem_cons_of_mem _ (List.mem_map_of_mem Prod.fst h)
    · rw [if_neg h1] at h
      by_cases h2 : k = k2
      · rw [if_pos h2] at h
        rcases List.mem_cons.mp h with h | h
        · subst h2
          simp [h]
        · refine Or.inr ?_
          rw [List.map_cons]
          exact List.mem_cons_of_mem _ (List.mem_map_of_mem Prod.fst h)
      · rw [if_neg h2] at h
        rcases List.mem_cons.mp h with h | h
        · simp [h]
        · rcases ih h with h3 | h3
          · exact Or.inl h3
          · refine Or.inr ?_
            rw [List.map_cons]
            exact List.mem_cons_of_mem _ h3

theorem btreeUpdate_sorted {k : String}
    {upd : FunctionCallBuffer → FunctionCallBuffer} {dflt : FunctionCallBuffer}
    {l : List (String × FunctionCallBuffer)}
    (hl : l.Pairwise (fun a b => a.1.toList < b.1.toList)) :
    (btreeUpdate k upd dflt l).Pairwise (fun a b => a.1.toList < b.1.toList) := by
  induction l with
  | nil => simp [btreeUpdate]
  | cons head rest ih =>
    obtain ⟨k2, v⟩ := head
    rcases List.pairwise_cons.mp hl with ⟨hhead, hrest⟩
    unfold btreeUpdate
    by_cases h1 : k.toList < k2.toList
    · rw [if_pos h1]
      refine List.pairwise_cons.mpr ⟨?_, hl⟩
      intro kv hkv
      rcases List.mem_cons.mp hkv with h | h
      · subst h; exact h1
      · exact lt_trans h1 (hhead kv h)
    · rw [if_neg h1]
      by_cases h2 : k = k2
      · rw [if_pos h2]
        exact List.pairwise_cons.mpr ⟨fun kv hkv => hhead kv hkv, hrest⟩
      · rw [if_neg h2]
        refine List.pairwise_cons.mpr ⟨?_, ih hrest⟩
        intro kv hkv
        rcases btreeUpdate_key_mem hkv with h3 | h3
        · rw [h3]
          rcases lt_trichotomy k.toList k2.toList with h4 | h4 | h4
          · exact absurd h4 h1
          · refine absurd ?_ h2
            cases k with
            | mk d1 =>
              cases k2 with
              | mk d2 =>
                have hd : d1 = d2 := by simpa [String.toList] using h4
                rw [hd]
          · exact h4
        · obtain ⟨v2, hv2⟩ := List.mem_map.mp h3
          have hlt := hhead v2 hv2.1
          rw [hv2.2] at hlt
          exact hlt

theorem btreeUpdate_id_coherent {k : String} {delta : ToolCallDelta}
    {l : List (String × FunctionCallBuffer)}
    (hl : ∀ kv ∈ l, kv.2.id = kv.1) :
    ∀ kv ∈ btreeUpdate k (applyToolCallDelta delta)
        { id := k, name := "", arguments := "" } l, kv.2.id = kv.1 := by
  induction l with
  | nil =>
    intro kv hkv
    simp [btreeUpdate] at hkv
    simp [hkv, applyToolCallDelta]
  | cons head rest ih =>
    obtain ⟨k2, v⟩ := head
    intro kv hkv
    unfold btreeUpdate at hkv
    by_cases h1 : k.toList < k2.toList
    · rw [if_pos h1] at hkv
      rcases List.mem_cons.mp hkv with h | h
      · simp [h, applyToolCallDelta]
      · exact hl kv h
    · rw [if_neg h1] at hkv
      by_cases h2 : k = k2
      · rw [if_pos h2] at hkv
        rcases List.mem_cons.mp hkv with h | h
        · have hv : v.id = k2 := hl (k2, v) (List.mem_cons_self _ _)
          simp [h, applyToolCallDelta, hv]
        · exact hl kv (List.mem_cons_of_mem _ h)
      · rw [if_neg h2] at hkv
        rcases List.mem_cons.mp hkv with h | h
        · exact hl kv (by rw [h]; exact List.mem_cons_self _ _)
        · exact ih (fun kv2 hkv2 => hl kv2 (List.mem_cons_of_mem _ hkv2)) kv h

theorem processChunk_buffer_inv {st : ProjectorState} {c : Chunk}
    (hst : BufferInv st) : BufferInv (processChunk st c).1 := by
  obtain ⟨hsort, hid⟩ := hst
  cases c with
  | content delta =>
    by_cases he : delta.text = ""
    · exact ⟨by simpa [processChunk, he] using hsort,
        by simpa [processChunk, he] using hid⟩
    · exact ⟨by simpa [processChunk, he] using hsort,
        by simpa [processChunk, he] using hid⟩
  | toolCall delta =>
    refine ⟨btreeUpdate_sorted hsort, ?_⟩
    exact btreeUpdate_id_coherent hid
  | messageStart => exact ⟨hsort, hid⟩
  | messageDelta => exact ⟨hsort, hid⟩
  | messageStop => simp [processChunk, BufferInv]
  | unknown => exact ⟨hsort, hid⟩

theorem processChunks_buffer_inv {st : ProjectorState} (chunks : List Chunk)
    (hst : BufferInv st) : BufferInv (processChunks st chunks).1 := by
  induction chunks generalizing st with
  | nil => exact hst
  | cons c rest ih => exact ih (processChunk_buffer_inv hst)

/-- Claim C2 (amended): after any finite chunk prefix, the buffered calls are
sorted by id in strictly ascending order with each buffer's id equal to its
key, and processing `Chunk::MessageStop` emits one `FunctionCall` per buffered
call with non-empty name — hence in ascending id order, not insertion order —
followed by `EndTurn` after all of them, and clears the buffer. -/
theorem message_stop_emits_buffered_before_end_turn (chunks : List Chunk) :
    ((processChunks projectorInit chunks).1.function_calls.Pairwise
      (fun a b => a.1.toList < b.1.toList)) ∧
    (∀ kv ∈ (processChunks projectorInit chunks).1.function_calls,
      kv.2.id = kv.1) ∧
    (processChunk (processChunks projectorInit chunks).1 .messageStop).2 =
      emitBuffered (processChunks projectorInit chunks).1.function_calls ++
        [.endTurn] ∧
    (processChunk (processChunks projectorInit chunks).1
        .messageStop).1.function_calls = [] := by
  obtain ⟨hsort, hid⟩ :=
    processChunks_buffer_inv chunks
      (show BufferInv projectorInit by simp [BufferInv, projectorInit])
  exact ⟨hsort, hid, rfl, rfl⟩

theorem runSseLoop_stream_error {registry scripts fuel e}
    (hconsume : consumeStream (scripts.headD []) "" [] = .error e)
    (messages final_content appends model_calls : _) :
    runSseLoop registry scripts messages final_content appends model_calls
        (fuel + 1) =
      { result := .error e, messages := messages, session_appends := appends,
        model_calls := model_calls + 1 } := by
  unfold runSseLoop
  rw [hconsume]

theorem runSseLoop_no_calls {registry scripts fuel delta calls}
    (hconsume : consumeStream (scripts.headD []) "" [] = .ok (delta, calls))
    (hcalls : calls.isEmpty = true) (messages final_content appends model_calls : _) :
    runSseLoop registry scripts messages final_content appends model_calls
        (fuel + 1) =
      { result := .ok { content := final_content ++ delta, success := true },
        messages := messages ++ [assistantMessage delta calls],
        session_appends := appends ++ [assistantMessage delta calls],
        model_calls := model_calls + 1 } := by
  unfold runSseLoop
  rw [hconsume]
  simp [hcalls]

theorem runSseLoop_tool_error {registry scripts fuel delta calls toolMsgs e}
    (hconsume : consumeStream (scripts.headD []) "" [] = .ok (delta, calls))
    (hcalls : calls.isEmpty = false)
    (hloop : execToolLoop registry calls = (toolMsgs, some e))
    (messages final_content appends model_calls : _) :
    runSseLoop registry scripts messages final_content appends model_calls
        (fuel + 1) =
      { result := .error e,
        messages := messages ++ [assistantMessage delta calls] ++ toolMsgs,
        session_appends := appends ++ [assistantMessage delta calls] ++ toolMsgs,
        model_calls := model_calls + 1 } := by
  unfold runSseLoop
  rw [hconsume]
  simp only [hcalls, Bool.false_eq_true, if_false]
  rw [hloop]

theorem runSseLoop_continue {registry scripts fuel delta calls toolMsgs}
    (hconsume : consumeStream (scripts.headD []) "" [] = .ok (delta, calls))
    (hcalls : calls.isEmpty = false)
    (hloop : execToolLoop registry calls = (toolMsgs, none))
    (messages final_content appends model_calls : _) :
    runSseLoop registry scripts messages final_content appends model_calls
        (fuel + 1) =
      runSseLoop registry scripts.tail
        (messages ++ [assistantMessage delta calls] ++ toolMsgs)
        (final_content ++ delta)
        (appends ++ [assistantMessage delta calls] ++ toolMsgs)
        (model_calls + 1) fuel := by
  conv_lhs => unfold runSseLoop
  rw [hconsume]
  simp only [hcalls, Bool.false_eq_true, if_false]
  rw [hloop]

theorem runSseLoop_model_calls_le (registry : ToolRegistry) (fuel : Nat) :
    ∀ scripts messages final_content appends model_calls,
      (runSseLoop registry scripts messages final_content appends model_calls
          fuel).model_calls ≤ model_calls + fuel := by
  induction fuel with
  | zero =>
    intro scripts messages final_content appends model_calls
    simp [runSseLoop]
  | succ fuel ih =>
    intro scripts messages final_content appends model_calls
    cases hconsume : consumeStream (scripts.headD []) "" [] with
    | error e =>
      rw [runSseLoop_stream_error hconsume]
      simp
    | ok pair =>
      obtain ⟨delta, calls⟩ := pair
      cases hcalls : calls.isEmpty with
      | true =>
        rw [runSseLoop_no_calls hconsume hcalls]
        simp
      | false =>
        cases hloop : execToolLoop registry calls with
        | mk toolMsgs err =>
          cases err with
          | some e =>
            rw [runSseLoop_tool_error hconsume hcalls hloop]
            simp
          | none =>
            rw [runSseLoop_continue hconsume hcalls hloop]
            have := ih scripts.tail
              (messages ++ [assistantMessage delta calls] ++ toolMsgs)
              (final_content ++ delta)
              (appends ++ [assistantMessage delta calls] ++ toolMsgs)
              (model_calls + 1)
            omega

theorem runSseLoop_exhausts (registry : ToolRegistry) (fuel : Nat) :
    ∀ scripts messages final_content appends model_calls,
      (∀ i, i < fuel →
        iterationContinues registry ((scripts.drop i).headD []) = true) →
      (runSseLoop registry scripts messages final_content appends model_calls
          fuel).result = .error (.sessionError "too many tool call iterations") ∧
      (runSseLoop registry scripts messages final_content appends model_calls
          fuel).model_calls = model_calls + fuel := by
  induction fuel with
  | zero =>
    intro scripts messages final_content appends model_calls _
    simp [runSseLoop]
  | succ fuel ih =>
    intro scripts messages final_content appends model_calls hcont
    have h0 : iterationContinues registry (scripts.headD []) = true := by
      simpa using hcont 0 (Nat.succ_pos fuel)
    unfold iterationContinues at h0
    cases hconsume : consumeStream (scripts.headD []) "" [] with
    | error e =>
      rw [hconsume] at h0
      cases h0
    | ok pair =>
      obtain ⟨delta, calls⟩ := pair
      rw [hconsume] at h0
      have h1 : (!calls.isEmpty && (execToolLoop registry calls).2.isNone) = true := by
        simpa using h0
      rcases Bool.and_eq_true_iff.mp h1 with ⟨hne, hexec⟩
      have hcalls : calls.isEmpty = false := by
        cases hc : calls.isEmpty
        · rfl
        · rw [hc] at hne; cases hne
      have hexec2 : (execToolLoop registry calls).2 = none :=
        Option.isNone_iff_eq_none.mp hexec
      cases hloop : execToolLoop registry calls with
      | mk toolMsgs err =>
        rw [hloop] at hexec2
        subst hexec2
        rw [runSseLoop_continue hconsume hcalls hloop]
        have hshift : ∀ i, i < fuel →
            iterationContinues registry ((scripts.tail.drop i).headD []) = true := by
          intro i hi
          have hstep := hcont (i + 1) (Nat.succ_lt_succ hi)
          have heq : scripts.tail.drop i = scripts.drop (i + 1) := by
            rw [← List.drop_one, List.drop_drop, Nat.add_comm]
          rw [heq]
          exact hstep
        have := ih scripts.tail
          (messages ++ [assistantMessage delta calls] ++ toolMsgs)
          (final_content ++ delta)
          (appends ++ [assistantMessage delta calls] ++ toolMsgs)
          (model_calls + 1) hshift
        refine ⟨this.1, ?_⟩
        rw [this.2]
        omega

/-- Claim C5: `run_sse_interaction` performs at most 10 model-call iterations
per turn, and when each of the first 10 iterations ends with buffered tool
calls that all execute successfully (so the loop never reaches the
no-tool-calls exit), the turn fails with
`SessionError("too many tool call iterations")` after exactly 10 model
calls. -/
theorem run_sse_interaction_iteration_cap (registry : ToolRegistry)
    (scripts : List (List ResponseEvent)) (messages : List Message)
    (hcont : ∀ i, i < 10 →
      iterationContinues registry ((scripts.drop i).headD []) = true) :
    (∀ scripts2 messages2,
      (run_sse_interaction registry scripts2 messages2).model_calls ≤ 10) ∧
    (run_sse_interaction registry scripts messages).result =
      .error (.sessionError "too many tool call iterations") ∧
    (run_sse_interaction registry scripts messages).model_calls = 10 := by
  refine ⟨?_, ?_, ?_⟩
  · intro scripts2 messages2
    simpa [run_sse_interaction] using
      runSseLoop_model_calls_le registry 10 scripts2 messages2 "" [] 0
  · exact (runSseLoop_exhausts registry 10 scripts messages "" [] 0 hcont).1
  · simpa [run_sse_interaction] using
      (runSseLoop_exhausts registry 10 scripts messages "" [] 0 hcont).2

/-- Witness for C5: ten iterations each buffering one successful tool call
exhaust the loop into `SessionError("too many tool call iterations")`. -/
theorem run_sse_interaction_iteration_cap_witness :
    (∀ scripts2 messages2,
      (run_sse_interaction
          [("t", fun _ => Except.ok { id := "", content := "out", is_error := false })]
          scripts2 messages2).model_calls ≤ 10) ∧
    (run_sse_interaction
        [("t", fun _ => Except.ok { id := "", content := "out", is_error := false })]
        (List.replicate 10
          [ResponseEvent.functionCall "c1" "function" "t" "", ResponseEvent.endTurn])
        [Message.user "go"]).result =
      .error (.sessionError "too many tool call iterations") ∧
    (run_sse_interaction
        [("t", fun _ => Except.ok { id := "", content := "out", is_error := false })]
        (List.replicate 10
          [ResponseEvent.functionCall "c1" "function" "t" "", ResponseEvent.endTurn])
        [Message.user "go"]).model_calls = 10 :=
  run_sse_interaction_iteration_cap
    [("t", fun _ => Except.ok { id := "", content := "out", is_error := false })]
    (List.replicate 10
      [ResponseEvent.functionCall "c1" "function" "t" "", ResponseEvent.endTurn])
    [Message.user "go"]
    (by decide)

/-- Counterexample to claim C3 as stated: a handler error does abort the
turn.  With one registered tool whose handler fails with "boom" and a single
model iteration issuing that call, `run_sse_interaction` returns
`Err(ToolError("boom"))` and the only session append is the assistant
message — no tool-output-shaped `Tool` message is appended and no further
iteration runs. -/
theorem tool_error_aborts_turn_counterexample :
    (run_sse_interaction [("read_file", fun _ => Except.error "boom")]
        [[ResponseEvent.functionCall "call_1" "function" "read_file" "",
          ResponseEvent.endTurn]]
        [Message.user "hi"]).result = .error (.toolError "boom") ∧
    (run_sse_interaction [("read_file", fun _ => Except.error "boom")]
        [[ResponseEvent.functionCall "call_1" "function" "read_file" "",
          ResponseEvent.endTurn]]
        [Message.user "hi"]).session_appends =
      [Message.assistant none
        (some [{ id := "call_1", call_type := "function",
                 function := { name := "read_file", arguments := "" } }])] ∧
    (run_sse_interaction [("read_file", fun _ => Except.error "boom")]
        [[ResponseEvent.functionCall "call_1" "function" "read_file" "",
          ResponseEvent.endTurn]]
        [Message.user "hi"]).model_calls = 1 :=
  ⟨rfl, rfl, rfl⟩

/-- Claim C3 (amended): when a buffered call's registered handler returns an
error, the turn aborts: `execute_tool_call` wraps the handler error as
`ToolError`, `run_sse_interaction` propagates it as the turn result after a
single model call, and no `Tool` message is appended for the failed call
(here the failing call is the only buffered one, so the assistant message is
the only session append). -/
theorem tool_error_aborts_turn (registry : ToolRegistry)
    (scripts : List (List ResponseEvent)) (messages : List Message)
    (call : FunctionCallEvent)
    (handler : ToolInvocation → Except String ToolOutput) (e : String)
    (delta : String)
    (hconsume : consumeStream (scripts.headD []) "" [] = .ok (delta, [call]))
    (hhandler : get_handler registry call.name = some handler)
    (herr : handler
      { id := call.id, name := call.name, arguments := call.arguments } =
        .error e) :
    (run_sse_interaction registry scripts messages).result =
      .error (.toolError e) ∧
    (run_sse_interaction registry scripts messages).session_appends =
      [assistantMessage delta [call]] ∧
    (run_sse_interaction registry scripts messages).model_calls = 1 := by
  have hexec : execute_tool_call registry call = .error (.toolError e) := by
    unfold execute_tool_call
    rw [hhandler]
    dsimp only
    rw [herr]
  have hloop : execToolLoop registry [call] = ([], some (.toolError e)) := by
    unfold execToolLoop
    rw [hexec]
  have hrw := @runSseLoop_tool_error registry scripts 9 delta [call] []
    (.toolError e) hconsume rfl hloop messages "" [] 0
  unfold run_sse_interaction
  rw [hrw]
  exact ⟨rfl, by simp, rfl⟩

/-- Witness for the amended C3 at a concrete failing handler. -/
theorem tool_error_aborts_turn_witness :
    (run_sse_interaction [("patch", fun _ => Except.error "io error")]
        [[ResponseEvent.contentDelta "Applying. " 0,
          ResponseEvent.functionCall "p1" "function" "patch" "",
          ResponseEvent.endTurn]]
        []).result = .error (.toolError "io error") ∧
    (run_sse_interaction [("patch", fun _ => Except.error "io error")]
        [[ResponseEvent.contentDelta "Applying. " 0,
          ResponseEvent.functionCall "p1" "function" "patch" "",
          ResponseEvent.endTurn]]
        []).session_appends =
      [assistantMessage "Applying. "
        [{ id := "p1", call_type := "function", name := "patch", arguments := "" }]] ∧
    (run_sse_interaction [("patch", fun _ => Except.error "io error")]
        [[ResponseEvent.contentDelta "Applying. " 0,
          ResponseEvent.functionCall "p1" "function" "patch" "",
          ResponseEvent.endTurn]]
        []).model_calls = 1 :=
  tool_error_aborts_turn [("patch", fun _ => Except.error "io error")]
    [[ResponseEvent.contentDelta "Applying. " 0,
      ResponseEvent.functionCall "p1" "function" "patch" "",
      ResponseEvent.endTurn]]
    []
    { id := "p1", call_type := "function", name := "patch", arguments := "" }
    (fun _ => Except.error "io error") "io error" "Applying. " rfl rfl rfl

theorem execToolLoop_appends_tools (registry : ToolRegistry)
    (calls : List FunctionCallEvent) :
    ∀ m ∈ (execToolLoop registry calls).1, isAssistantOrTool m = true := by
  induction calls with
  | nil =>
    intro m hm
    simp [execToolLoop] at hm
  | cons call rest ih =>
    intro m hm
    unfold execToolLoop at hm
    cases hexec : execute_tool_call registry call with
    | error e =>
      rw [hexec] at hm
      simp at hm
    | ok output =>
      rw [hexec] at hm
      simp only [] at hm
      rcases List.mem_cons.mp hm with h | h
      · rw [h]
        rfl
      · exact ih m h

theorem runSseLoop_appends_assistant_or_tool (registry : ToolRegistry)
    (fuel : Nat) :
    ∀ scripts messages final_content appends model_calls,
      (∀ m ∈ appends, isAssistantOrTool m = true) →
      ∀ m ∈ (runSseLoop registry scripts messages final_content appends
          model_calls fuel).session_appends, isAssistantOrTool m = true := by
  induction fuel with
  | zero =>
    intro scripts messages final_content appends model_calls happ m hm
    exact happ m (by simpa [runSseLoop] using hm)
  | succ fuel ih =>
    intro scripts messages final_content appends model_calls happ m hm
    have hassist : ∀ delta calls,
        ∀ m2 ∈ appends ++ [assistantMessage delta calls],
          isAssistantOrTool m2 = true := by
      intro delta calls m2 hm2
      rcases List.mem_append.mp hm2 with h | h
      · exact happ m2 h
      · rw [List.mem_singleton.mp h]
        rfl
    cases hconsume : consumeStream (scripts.headD []) "" [] with
    | error e =>
      rw [runSseLoop_stream_error hconsume] at hm
      exact happ m hm
    | ok pair =>
      obtain ⟨delta, calls⟩ := pair
      cases hcalls : calls.isEmpty with
      | true =>
        rw [runSseLoop_no_calls hconsume hcalls] at hm
        exact hassist delta calls m hm
      | false =>
        cases hloop : execToolLoop registry calls with
        | mk toolMsgs err =>
          have htools : ∀ m2 ∈ toolMsgs, isAssistantOrTool m2 = true := by
            intro m2 hm2
            have := execToolLoop_appends_tools registry calls m2
            rw [hloop] at this
            exact this hm2
          have hall : ∀ m2 ∈ appends ++ [assistantMessage delta calls] ++ toolMsgs,
              isAssistantOrTool m2 = true := by
            intro m2 hm2
            rcases List.mem_append.mp hm2 with h | h
            · exact hassist delta calls m2 h
            · exact htools m2 h
          cases err with
          | some e =>
            rw [runSseLoop_tool_error hconsume hcalls hloop] at hm
            exact hall m hm
          | none =>
            rw [runSseLoop_continue hconsume hcalls hloop] at hm
            exact ih scripts.tail _ _ _ _ hall m hm

/-- Counterexample to claim C4 as stated: the new user message is not
appended to the session history.  With no system prompt, empty history and a
model that immediately ends the turn, the post-turn history holds only the
empty assistant message — `User "hi"` is absent even though the initial
message list sent to the model was exactly `[User "hi"]`. -/
theorem user_message_not_appended_counterexample :
    (run_turn [] [[ResponseEvent.endTurn]]
        { model := "m", max_tokens := none, system_prompt := none,
          enable_tools := true } [] "hi").new_history =
      [Message.assistant none none] ∧
    Message.user "hi" ∉
      (run_turn [] [[ResponseEvent.endTurn]]
        { model := "m", max_tokens := none, system_prompt := none,
          enable_tools := true } [] "hi").new_history ∧
    build_messages
        { model := "m", max_tokens := none, system_prompt := none,
          enable_tools := true } [] "hi" = [Message.user "hi"] := by
  refine ⟨rfl, ?_, rfl⟩
  intro hmem
  have : Message.user "hi" ∈ [Message.assistant none none] := hmem
  simp at this

/-- Claim C4 (amended): the initial message list given to the model is
exactly the optional system prompt, then at most the last 100 messages of
session history in order (a suffix of the history, the whole history when it
is short enough), then the new user message; but the new user message is not
appended to the session history — a turn appends only Assistant and Tool
messages. -/
theorem build_messages_shape_and_no_user_append (registry : ToolRegistry)
    (scripts : List (List ResponseEvent)) (config : TurnConfig)
    (history : List Message) (input : String) :
    build_messages config history input =
      (match config.system_prompt with
       | some s => [Message.system s]
       | none => []) ++ get_history history 100 ++ [Message.user input] ∧
    get_history history 100 <:+ history ∧
    (get_history history 100).length = min history.length 100 ∧
    (run_turn registry scripts config history input).new_history =
      history ++ (run_sse_interaction registry scripts
        (build_messages config history input)).session_appends ∧
    (∀ m ∈ (run_sse_interaction registry scripts
        (build_messages config history input)).session_appends,
      isAssistantOrTool m = true) := by
  refine ⟨rfl, ?_, ?_, rfl, ?_⟩
  · unfold get_history
    by_cases h : history.length ≤ 100
    · simp [h]
    · simp only [h, if_false]
      exact List.drop_suffix _ _
  · unfold get_history
    by_cases h : history.length ≤ 100
    · simp [h, Nat.min_eq_left h]
    · simp only [h, if_false, List.length_drop]
      omega
  · exact runSseLoop_appends_assistant_or_tool registry 10 scripts
      (build_messages config history input) "" [] 0 (by simp)

/-- Claim C10: on success, `spawn_agent` registers the returned thread id
with exactly the depth, role and task passed to the call; a `None` parent is
recorded as the calling agent's root thread id and a `None` role as
"default". -/
theorem spawn_agent_registers_thread (cs : ControlState) (task : String)
    (role : Option String) (parent_thread_id : Option Nat) (depth : Nat)
    (max_threads : Option Nat) (cs2 : ControlState) (tid : Nat)
    (h : spawn_agent cs task role parent_thread_id depth max_threads =
      (cs2, .ok tid)) :
    ∃ m2, cs2.manager = some m2 ∧
      get_thread m2 tid = some
        { thread_id := tid,
          parent_thread_id := some (parent_thread_id.getD cs.root_thread_id),
          depth := depth, role := role.getD "default", task := task } := by
  unfold spawn_agent at h
  by_cases htask : task.toList.all (fun c => c.isWhitespace)
  · rw [if_pos htask] at h
    cases h
  · rw [if_neg htask] at h
    by_cases hdepth : exceeds_thread_spawn_depth_limit depth = true
    · simp only [hdepth, if_true] at h
      cases h
    · simp only [hdepth, Bool.false_eq_true, if_false] at h
      cases hmgr : cs.manager with
      | none =>
        rw [hmgr] at h
        cases h
      | some manager =>
        rw [hmgr] at h
        dsimp only at h
        cases hres : (reserve_spawn_slot cs.guards max_threads).2 with
        | error ge =>
          cases ge with
          | agentLimitReached n =>
            rw [hres] at h
            cases h
        | ok u =>
          rw [hres] at h
          dsimp only at h
          injection h with h1 h2
          injection h2 with h2
          subst h2
          refine ⟨(spawn_thread manager
            (parent_thread_id.getD cs.root_thread_id) depth
            (role.getD "default") task).1, ?_, ?_⟩
          · rw [← h1]
          · unfold spawn_thread get_thread
            simp

/-- Witness for C10: spawning from root thread 3 with no explicit parent or
role registers thread 7 with parent 3, role "default", depth 1 and the given
task. -/
theorem spawn_agent_registers_thread_witness :
    ∃ m2,
      (spawn_agent
        { guards := guardsInit,
          manager := some { threads := [], next_thread_id := 7 },
          root_thread_id := 3 }
        "scan the repo" none none 1 (some 2)).1.manager = some m2 ∧
      get_thread m2 7 = some
        { thread_id := 7, parent_thread_id := some 3, depth := 1,
          role := "default", task := "scan the repo" } := by
  have h := spawn_agent_registers_thread
    { guards := guardsInit,
      manager := some { threads := [], next_thread_id := 7 },
      root_thread_id := 3 }
    "scan the repo" none none 1 (some 2)
    (spawn_agent
      { guards := guardsInit,
        manager := some { threads := [], next_thread_id := 7 },
        root_thread_id := 3 }
      "scan the repo" none none 1 (some 2)).1
    7 rfl
  simpa using h

end Cokra

